import Mathlib

/-!
Verification development for the FullAMIUpdate reconciliation scripts.

Python strings are modelled as lists of characters (`Str`), machine data as
plain inductive types, and each relevant source function is translated into a
computable Lean definition.  The paginated HTTP loops are modelled against an
explicit list of server responses; everything else is pure.
-/

/-- Python strings, modelled as lists of characters. -/
abbrev Str := List Char

/-- Whitespace characters removed by the Python method str.strip with no
argument: space, tab, newline, carriage return, vertical tab, form feed. -/
def pyIsSpace (c : Char) : Bool :=
  c == ' ' || c == '\t' || c == '\n' || c == '\r' || c == '\x0b' || c == '\x0c'

/-- Python str.strip with no argument: drop leading and trailing whitespace. -/
def pyStrip (s : Str) : Str :=
  ((s.dropWhile pyIsSpace).reverse.dropWhile pyIsSpace).reverse

/-- Python str.lower, modelled with Char.toLower (ASCII case folding, which is
all the repository's data uses). -/
def pyLower (s : Str) : Str := s.map Char.toLower

/-- normalize_name from src/sync_cdl_combined.py lines 50-62:
strip surrounding whitespace and lowercase. -/
def normalize_name (s : Str) : Str := pyLower (pyStrip s)

/-- The character list of the literal "Retired-". -/
def retiredDash : Str := ['R', 'e', 't', 'i', 'r', 'e', 'd', '-']

/-- The character list of the literal "Retired - ". -/
def retiredSpaceDash : Str := ['R', 'e', 't', 'i', 'r', 'e', 'd', ' ', '-', ' ']

/-- The while loop of _compare_fields (src/IssuesProcessing.py lines 690-695)
computing base_summary, written with explicit fuel.  Each iteration removes one
leading "Retired - " or "Retired-" and then applies str.strip, exactly as the
Python branches do (the two prefixes are mutually exclusive, so checking
"Retired - " first matches the Python if/elif order). -/
def stripRetiredAux : Nat → Str → Str
  | 0, s => s
  | fuel + 1, s =>
    if retiredSpaceDash.isPrefixOf s then
      stripRetiredAux fuel (pyStrip (s.drop retiredSpaceDash.length))
    else if retiredDash.isPrefixOf s then
      stripRetiredAux fuel (pyStrip (s.drop retiredDash.length))
    else s

/-- base_summary as a function of the current summary.  Fuel s.length suffices
because every loop iteration removes at least eight characters. -/
def stripRetired (s : Str) : Str := stripRetiredAux s.length s

/-- expected_summary for a record whose operational_status is "6"
(src/IssuesProcessing.py line 700): a single clean "Retired-" prefix on the
base summary, truncated to 255 characters. -/
def deriveRetiredSummary (s : Str) : Str :=
  (retiredDash ++ stripRetired s).take 255

/-- Substring test, as the Python in operator on str: some suffix of s has
p as a prefix. -/
def containsSub (p s : Str) : Bool := s.tails.any (fun t => p.isPrefixOf t)

theorem length_dropWhile_le (p : Char → Bool) (l : Str) :
    (l.dropWhile p).length ≤ l.length :=
  (List.dropWhile_suffix p).sublist.length_le

theorem pyStrip_length_le (s : Str) : (pyStrip s).length ≤ s.length := by
  have a := length_dropWhile_le pyIsSpace s
  have b := length_dropWhile_le pyIsSpace (s.dropWhile pyIsSpace).reverse
  simp only [pyStrip, List.length_reverse] at *
  omega

theorem dropWhile_dropWhile (p : Char → Bool) (l : Str) :
    (l.dropWhile p).dropWhile p = l.dropWhile p := by
  induction l with
  | nil => rfl
  | cons a t ih =>
    by_cases h : p a
    · simp [List.dropWhile_cons, h, ih]
    · simp [List.dropWhile_cons, h]

theorem dropWhile_eq_self_of_initial {p : Char → Bool} {l₁ l₂ : Str}
    (hp : l₁ <+: l₂) (h : l₂.dropWhile p = l₂) : l₁.dropWhile p = l₁ := by
  cases l₁ with
  | nil => rfl
  | cons a t =>
    obtain ⟨r, hr⟩ := hp
    by_cases hpa : p a
    · exfalso
      rw [← hr, List.cons_append, List.dropWhile_cons, if_pos hpa] at h
      have hle := length_dropWhile_le p (t ++ r)
      have := congrArg List.length h
      simp only [List.length_cons] at this
      omega
    · simp [List.dropWhile_cons, hpa]

theorem pyStrip_pyStrip (s : Str) : pyStrip (pyStrip s) = pyStrip s := by
  have hsuf : (s.dropWhile pyIsSpace).reverse.dropWhile pyIsSpace <:+
      (s.dropWhile pyIsSpace).reverse := List.dropWhile_suffix pyIsSpace
  have h3 := List.reverse_prefix.mpr hsuf
  rw [List.reverse_reverse] at h3
  have h2 : (((s.dropWhile pyIsSpace).reverse.dropWhile pyIsSpace).reverse).dropWhile
      pyIsSpace = ((s.dropWhile pyIsSpace).reverse.dropWhile pyIsSpace).reverse :=
    dropWhile_eq_self_of_initial h3 (dropWhile_dropWhile pyIsSpace s)
  show pyStrip (((s.dropWhile pyIsSpace).reverse.dropWhile pyIsSpace).reverse) = _
  unfold pyStrip
  rw [h2, List.reverse_reverse,
    dropWhile_dropWhile pyIsSpace (s.dropWhile pyIsSpace).reverse]

theorem retiredSpaceDash_not_prefix_append (b : Str) :
    retiredSpaceDash.isPrefixOf (retiredDash ++ b) = false := rfl

theorem retiredDash_prefix_append (b : Str) :
    retiredDash.isPrefixOf (retiredDash ++ b) = true := by
  have : retiredDash <+: retiredDash ++ b := ⟨b, rfl⟩
  exact List.isPrefixOf_iff_prefix.mpr this

theorem stripRetiredAux_noRetired {fuel : Nat} {s : Str} (h : s.length ≤ fuel) :
    retiredSpaceDash.isPrefixOf (stripRetiredAux fuel s) = false ∧
    retiredDash.isPrefixOf (stripRetiredAux fuel s) = false := by
  induction fuel generalizing s with
  | zero =>
    have hnil : s = [] := List.length_eq_zero.mp (Nat.le_zero.mp h)
    subst hnil
    exact ⟨rfl, rfl⟩
  | succ n ih =>
    rw [stripRetiredAux]
    cases h1 : retiredSpaceDash.isPrefixOf s with
    | true =>
      simp only [if_pos rfl]
      apply ih
      have h10 : retiredSpaceDash.length ≤ s.length :=
        (List.isPrefixOf_iff_prefix.mp h1).length_le
      have hd : (s.drop retiredSpaceDash.length).length =
          s.length - retiredSpaceDash.length := List.length_drop _ _
      have hps := pyStrip_length_le (s.drop retiredSpaceDash.length)
      have hL : retiredSpaceDash.length = 10 := rfl
      omega
    | false =>
      simp only [Bool.false_eq_true, if_false]
      cases h2 : retiredDash.isPrefixOf s with
      | true =>
        simp only [if_pos rfl]
        apply ih
        have h8 : retiredDash.length ≤ s.length :=
          (List.isPrefixOf_iff_prefix.mp h2).length_le
        have hd : (s.drop retiredDash.length).length =
            s.length - retiredDash.length := List.length_drop _ _
        have hps := pyStrip_length_le (s.drop retiredDash.length)
        have hL : retiredDash.length = 8 := rfl
        omega
      | false =>
        simp only [Bool.false_eq_true, if_false]
        exact ⟨h1, h2⟩

theorem stripRetiredAux_eq_self {fuel : Nat} {s : Str}
    (h1 : retiredSpaceDash.isPrefixOf s = false)
    (h2 : retiredDash.isPrefixOf s = false) :
    stripRetiredAux fuel s = s := by
  cases fuel with
  | zero => rfl
  | succ n => rw [stripRetiredAux]; simp [h1, h2]

theorem pyStrip_stripRetiredAux (fuel : Nat) (s : Str) (h : pyStrip s = s) :
    pyStrip (stripRetiredAux fuel s) = stripRetiredAux fuel s := by
  induction fuel generalizing s with
  | zero => simpa [stripRetiredAux] using h
  | succ n ih =>
    rw [stripRetiredAux]
    cases h1 : retiredSpaceDash.isPrefixOf s with
    | true =>
      simp only [if_pos rfl]
      exact ih _ (pyStrip_pyStrip _)
    | false =>
      simp only [Bool.false_eq_true, if_false]
      cases h2 : retiredDash.isPrefixOf s with
      | true =>
        simp only [if_pos rfl]
        exact ih _ (pyStrip_pyStrip _)
      | false =>
        simpa using h

theorem stripRetired_retiredDash_append {b : Str} (hb : pyStrip b = b)
    (h1 : retiredSpaceDash.isPrefixOf b = false)
    (h2 : retiredDash.isPrefixOf b = false) :
    stripRetired (retiredDash ++ b) = b := by
  unfold stripRetired
  have hlen : (retiredDash ++ b).length = b.length + 8 := by
    simp [retiredDash]
  rw [hlen, show b.length + 8 = (b.length + 7) + 1 from rfl, stripRetiredAux]
  rw [retiredSpaceDash_not_prefix_append]
  simp only [Bool.false_eq_true, if_false, retiredDash_prefix_append, if_pos rfl]
  have hdrop : (retiredDash ++ b).drop retiredDash.length = b :=
    List.drop_left retiredDash b
  rw [hdrop, hb]
  exact stripRetiredAux_eq_self h1 h2

/-- C2 (amended): the retirement-label derivation of _compare_fields is
idempotent for any current summary that carries no surrounding whitespace and
whose derived form is not cut by the 255-character truncation; and no derived
summary ever starts with "Retired-Retired-".  (As stated over all inputs the
claim fails: stripping inside the loop deletes whitespace that an outer
"Retired-" protects, the truncation can expose a trailing space, and the
banned substring can occur in the interior of the base name.) -/
theorem retired_derivation_idempotent (n : Str) :
    (pyStrip n = n → (retiredDash ++ stripRetired n).length ≤ 255 →
      deriveRetiredSummary (deriveRetiredSummary n) = deriveRetiredSummary n) ∧
    (retiredDash ++ retiredDash).isPrefixOf (deriveRetiredSummary n) = false := by
  constructor
  · intro h1 h2
    have hb : pyStrip (stripRetired n) = stripRetired n :=
      pyStrip_stripRetiredAux _ _ h1
    have hnp := stripRetiredAux_noRetired (Nat.le_refl n.length)
    have hd1 : deriveRetiredSummary n = retiredDash ++ stripRetired n := by
      unfold deriveRetiredSummary
      exact List.take_of_length_le h2
    rw [hd1]
    unfold deriveRetiredSummary
    rw [stripRetired_retiredDash_append hb hnp.1 hnp.2]
    exact List.take_of_length_le h2
  · cases hpre : (retiredDash ++ retiredDash).isPrefixOf (deriveRetiredSummary n) with
    | false => rfl
    | true =>
      exfalso
      have hp : (retiredDash ++ retiredDash) <+: deriveRetiredSummary n :=
        List.isPrefixOf_iff_prefix.mp hpre
      have hp2 : (retiredDash ++ retiredDash) <+: retiredDash ++ stripRetired n :=
        hp.trans (List.take_prefix _ _)
      have hp3 : retiredDash <+: stripRetired n :=
        (List.prefix_append_right_inj retiredDash).mp hp2
      have hbad : retiredDash.isPrefixOf (stripRetired n) = true :=
        List.isPrefixOf_iff_prefix.mpr hp3
      have hgood := (stripRetiredAux_noRetired (Nat.le_refl n.length)).2
      rw [stripRetired] at hbad
      rw [hbad] at hgood
      exact Bool.noConfusion hgood

/-- Witness for the amended C2 theorem at the concrete summary "Pay". -/
theorem retired_derivation_idempotent_witness :
    deriveRetiredSummary (deriveRetiredSummary ['P', 'a', 'y']) =
      deriveRetiredSummary ['P', 'a', 'y'] :=
  (retired_derivation_idempotent ['P', 'a', 'y']).1 (by decide) (by decide)

/-- Base name used in the truncation conjunct of the C2 counterexample: 246
letters, an interior space, then two more letters, so that the 255-character
truncation of its derived summary ends exactly on the interior space. -/
def truncationExample : Str := List.replicate 246 'a' ++ [' '] ++ ['b', 'b']

set_option maxRecDepth 20000 in
/-- C2 counterexample: the derivation is not idempotent on the summary " X"
(leading space) nor on a trimmed 249-character name whose truncated derivation
exposes a trailing space, and the derived summary of
"a Retired-Retired-b" contains the substring "Retired-Retired-". -/
theorem retired_derivation_counterexample :
    deriveRetiredSummary (deriveRetiredSummary [' ', 'X']) ≠
      deriveRetiredSummary [' ', 'X'] ∧
    deriveRetiredSummary (deriveRetiredSummary truncationExample) ≠
      deriveRetiredSummary truncationExample ∧
    containsSub (retiredDash ++ retiredDash)
      (deriveRetiredSummary
        (['a', ' '] ++ retiredDash ++ retiredDash ++ ['b'])) = true := by
  refine ⟨by decide, by decide, by decide⟩

/-- One child of the target cascade structure (src/sync_cdl_combined.py
lines 156-163): a name and a disabled flag (disabled iff status is "6"). -/
structure TChild where
  name : Str
  disabled : Bool
deriving DecidableEq

/-- One child option of the current Jira structure (lines 181-185):
name, disabled flag, option id. -/
structure CChild where
  name : Str
  disabled : Bool
  id : Nat
deriving DecidableEq

/-- One parent option of the current Jira structure with its children
(lines 174-185). -/
structure CParent where
  name : Str
  id : Nat
  children : List CChild
deriving DecidableEq

/-- cascade_structure in iteration order: target parent names with their
target children.  The builder (lines 139-166) excludes status-"20" services
from this structure, placing their normalized names in planned_services. -/
abbrev Target := List (Str × List TChild)

/-- current_structure in iteration order. -/
abbrev Current := List CParent

/-- One operation emitted by the cascade reconciliation pass: planned hard
delete (lines 193-202), addition (239-252), move (254-271), reactivation
(273-281), obsolete disable (285-294). -/
inductive Op where
  | del (parent child : Str) (id : Nat)
  | add (parent child : Str) (disabled : Bool) (parentId : Nat)
  | move (child fromParent toParent : Str) (oldId : Nat) (disabled : Bool)
      (toParentId : Nat)
  | reactivate (parent child : Str) (id : Nat)
  | disable (parent child : Str) (id : Nat)
deriving DecidableEq

/-- The preliminary hard-delete pass (lines 195-202): every current child
whose normalized name lies in planned_services is deleted, with no change to
the in-memory current structure. -/
def plannedDeletes (planned : List Str) (current : Current) : List Op :=
  current.flatMap fun p =>
    p.children.filterMap fun c =>
      if planned.contains (normalize_name c.name) then
        some (Op.del p.name c.name c.id)
      else none

/-- The inner search of the main loop (lines 229-236): the first current
parent, in iteration order, containing a child with the given normalized
name, together with that child's id. -/
def findChildGlobal (current : Current) (childNorm : Str) : Option (Str × Nat) :=
  match current with
  | [] => none
  | p :: rest =>
    match p.children.find? (fun c => normalize_name c.name == childNorm) with
    | some c => some (p.name, c.id)
    | none => findChildGlobal rest childNorm

/-- Line 215: the first current parent whose normalized name equals the
normalized target parent name. -/
def lookupParentKey (current : Current) (pnorm : Str) : Option CParent :=
  current.find? (fun p => normalize_name p.name == pnorm)

/-- Operations emitted by the main loop body for one target child
(lines 224-283).  The none result models the uncaught StopIteration raised by
the bare next(...) on line 275 when the child was found under a parent whose
normalized name equals the target's but it is absent from the children of the
chosen jira_parent_key (possible only when two current parents share a
normalized name). -/
def diffChild (current : Current) (parentName : Str) (jp : CParent)
    (child : TChild) : Option (List Op) :=
  let childNorm := normalize_name child.name
  match findChildGlobal current childNorm with
  | none => some [Op.add parentName child.name child.disabled jp.id]
  | some (foundIn, childId) =>
    if normalize_name foundIn ≠ normalize_name parentName then
      some [Op.move child.name foundIn parentName childId child.disabled jp.id]
    else
      match jp.children.find? (fun c => normalize_name c.name == childNorm) with
      | none => none
      | some jc =>
        if jc.disabled && !child.disabled then
          some [Op.reactivate parentName child.name jc.id]
        else some []

/-- The main loop over the children of one target parent (line 224). -/
def diffChildren (current : Current) (parentName : Str) (jp : CParent) :
    List TChild → Option (List Op)
  | [] => some []
  | c :: cs =>
    match diffChild current parentName jp c,
        diffChildren current parentName jp cs with
    | some ops, some rest => some (ops ++ rest)
    | _, _ => none

/-- The main loop over target parents (lines 213-283).  A target parent with
no current counterpart is only logged as Parent missing and produces no
operation (lines 217-220). -/
def diffParents (current : Current) : Target → Option (List Op)
  | [] => some []
  | (pname, children) :: rest =>
    let here :=
      match lookupParentKey current (normalize_name pname) with
      | none => some []
      | some jp => diffChildren current pname jp children
    match here, diffParents current rest with
    | some ops, some more => some (ops ++ more)
    | _, _ => none

/-- The obsolete sweep (lines 286-297).  Line 287 fetches the target children
with an exact dictionary lookup on the current parent name, not a normalized
one. -/
def disableSweep (target : Target) (current : Current) : List Op :=
  current.flatMap fun p =>
    let targetChildren :=
      ((target.lookup p.name).getD []).map fun t => normalize_name t.name
    p.children.filterMap fun c =>
      if !(targetChildren.contains (normalize_name c.name)) && !c.disabled then
        some (Op.disable p.name c.name c.id)
      else none

/-- One cascade reconciliation pass over (target, planned set, current):
preliminary planned deletes, then the main diff loop, then the obsolete
sweep.  none models a run aborted by the StopIteration of line 275. -/
def cascadePass (target : Target) (planned : List Str) (current : Current) :
    Option (List Op) :=
  match diffParents current target with
  | none => none
  | some main =>
    some (plannedDeletes planned current ++ main ++ disableSweep target current)

/-- Largest option id in use plus one, standing in for the platform-assigned
id of a freshly created option. -/
def freshId (cur : Current) : Nat :=
  (cur.flatMap fun p => p.children.map (·.id)).foldr max 0 + 1

/-- Set the disabled flag of the option with the given id. -/
def setDisabled (cur : Current) (cid : Nat) (d : Bool) : Current :=
  cur.map fun p =>
    { p with children := p.children.map fun c =>
        if c.id = cid then { c with disabled := d } else c }

/-- Modelled from the spec: the remote platform's effect of one emitted
SyncOperation on the current option tree, which the repository only performs
through REST calls.  Delete removes the option; add creates a child under the
parent id; a move is the emitted disable of the old option plus a create
under the target parent (lines 258-271); disable and reactivate toggle the
flag. -/
def applyOp (cur : Current) : Op → Current
  | Op.del _ _ cid =>
    cur.map fun p => { p with children := p.children.filter fun c => c.id ≠ cid }
  | Op.add _ child disabled pid =>
    let nid := freshId cur
    cur.map fun p =>
      if p.id = pid then { p with children := p.children ++ [⟨child, disabled, nid⟩] }
      else p
  | Op.move child _ _ oldId disabled pid =>
    let cur1 := setDisabled cur oldId true
    let nid := freshId cur1
    cur1.map fun p =>
      if p.id = pid then { p with children := p.children ++ [⟨child, disabled, nid⟩] }
      else p
  | Op.reactivate _ _ cid => setDisabled cur cid false
  | Op.disable _ _ cid => setDisabled cur cid true

/-- Apply a list of emitted operations in order. -/
def applyOps (cur : Current) (ops : List Op) : Current := ops.foldl applyOp cur

/-- C1 failing input, target side: parent "A" with the enabled child "x". -/
def c1Target : Target := [(['A'], [⟨['x'], false⟩])]

/-- C1 failing input, current side: parent "A " (trailing space, option id 1)
holding the enabled child "x" (option id 2). -/
def c1Current : Current := [⟨['A', ' '], 1, [⟨['x'], false, 2⟩]⟩]

/-- C1: the pass is not a one-run fixed point.  On the failing input the
first pass emits one Disable (the sweep misses the target children because
line 287 matches the parent name exactly, and the trailing space defeats it);
applying it and re-running emits a Reactivate, not zero operations — and a
third run would disable again. -/
theorem cascade_pass_not_fixed_point :
    cascadePass c1Target [] c1Current = some [Op.disable ['A', ' '] ['x'] 2] ∧
    cascadePass c1Target []
        (applyOps c1Current [Op.disable ['A', ' '] ['x'] 2]) =
      some [Op.reactivate ['A'] ['x'] 2] ∧
    some [Op.reactivate ['A'] ['x'] 2] ≠ (some [] : Option (List Op)) :=
  ⟨by decide, by decide, by decide⟩

theorem mem_plannedDeletes {planned : List Str} {current : Current}
    {p : CParent} {c : CChild} (hp : p ∈ current) (hc : c ∈ p.children)
    (hpl : planned.contains (normalize_name c.name) = true) :
    Op.del p.name c.name c.id ∈ plannedDeletes planned current := by
  unfold plannedDeletes
  refine List.mem_flatMap.mpr ⟨p, hp, List.mem_filterMap.mpr ⟨c, hc, ?_⟩⟩
  rw [if_pos hpl]

theorem mem_disableSweep {target : Target} {current : Current}
    {p : CParent} {c : CChild} (hp : p ∈ current) (hc : c ∈ p.children)
    (hen : c.disabled = false)
    (hout : ((((target.lookup p.name).getD []).map fun t =>
        normalize_name t.name).contains (normalize_name c.name)) = false) :
    Op.disable p.name c.name c.id ∈ disableSweep target current := by
  unfold disableSweep
  refine List.mem_flatMap.mpr ⟨p, hp, List.mem_filterMap.mpr ⟨c, hc, ?_⟩⟩
  rw [hout, hen]
  rfl

theorem of_mem_disableSweep {target : Target} {current : Current} {o : Op}
    (h : o ∈ disableSweep target current) :
    ∃ p ∈ current, ∃ c ∈ p.children, o = Op.disable p.name c.name c.id ∧
      c.disabled = false ∧
      ((((target.lookup p.name).getD []).map fun t =>
        normalize_name t.name).contains (normalize_name c.name)) = false := by
  unfold disableSweep at h
  obtain ⟨p, hp, hmem⟩ := List.mem_flatMap.mp h
  obtain ⟨c, hc, heq⟩ := List.mem_filterMap.mp hmem
  refine ⟨p, hp, c, hc, ?_⟩
  by_cases hcond : (!(((((target.lookup p.name).getD []).map fun t =>
      normalize_name t.name)).contains (normalize_name c.name)) && !c.disabled) = true
  · rw [if_pos hcond] at heq
    simp only [Bool.and_eq_true] at hcond
    obtain ⟨h1, h2⟩ := hcond
    refine ⟨(Option.some.injEq _ _).mp heq.symm, ?_, ?_⟩
    · cases hcd : c.disabled
      · rfl
      · rw [hcd] at h2; exact absurd h2 (by decide)
    · cases hct : ((((target.lookup p.name).getD []).map fun t =>
          normalize_name t.name)).contains (normalize_name c.name)
      · rfl
      · rw [hct] at h1; exact absurd h1 (by decide)
  · rw [if_neg hcond] at heq
    exact absurd heq (by simp)

/-- C3 (amended): a current child whose normalized name lies in the planned
set always receives a Delete from the preliminary pass, regardless of its
disabled flag; but because the delete is not reflected in the in-memory
structure, the obsolete sweep additionally emits a Disable for the same child
whenever it is currently enabled and its normalized name is outside the
exact-key target child set of its parent. -/
theorem planned_child_delete_and_sweep (target : Target) (planned : List Str)
    (current : Current) (ops : List Op) (p : CParent) (c : CChild)
    (hp : p ∈ current) (hc : c ∈ p.children)
    (hpl : planned.contains (normalize_name c.name) = true)
    (hrun : cascadePass target planned current = some ops) :
    Op.del p.name c.name c.id ∈ ops ∧
    (c.disabled = false →
      ((((target.lookup p.name).getD []).map fun t =>
        normalize_name t.name).contains (normalize_name c.name)) = false →
      Op.disable p.name c.name c.id ∈ ops) := by
  unfold cascadePass at hrun
  cases hdp : diffParents current target with
  | none => rw [hdp] at hrun; exact absurd hrun (by simp)
  | some main =>
    rw [hdp] at hrun
    have hops : ops = plannedDeletes planned current ++ main ++
        disableSweep target current := ((Option.some.injEq _ _).mp hrun).symm
    subst hops
    constructor
    · exact List.mem_append.mpr (Or.inl (List.mem_append.mpr
        (Or.inl (mem_plannedDeletes hp hc hpl))))
    · intro hen hout
      exact List.mem_append.mpr (Or.inr (mem_disableSweep hp hc hen hout))

/-- Witness for the amended C3 theorem: a planned, enabled child "x" with
option id 2 under parent "A" receives both the Delete and the Disable. -/
theorem planned_child_delete_and_sweep_witness :
    Op.del ['A'] ['x'] 2 ∈ [Op.del ['A'] ['x'] 2, Op.disable ['A'] ['x'] 2] ∧
    Op.disable ['A'] ['x'] 2 ∈
      [Op.del ['A'] ['x'] 2, Op.disable ['A'] ['x'] 2] := by
  have h := planned_child_delete_and_sweep [] [['x']]
    [⟨['A'], 1, [⟨['x'], false, 2⟩]⟩]
    [Op.del ['A'] ['x'] 2, Op.disable ['A'] ['x'] 2]
    ⟨['A'], 1, [⟨['x'], false, 2⟩]⟩ ⟨['x'], false, 2⟩
    (by decide) (by decide) (by decide) (by decide)
  exact ⟨h.1, h.2 rfl (by decide)⟩

/-- C3 counterexample input, target side: parent "A" with no children (the
planned service is excluded from the target structure by the builder). -/
def c3Target : Target := [(['A'], [])]

/-- C3 counterexample input, current side: parent "A" holding the enabled
planned child "x". -/
def c3Current : Current := [⟨['A'], 1, [⟨['x'], false, 2⟩]⟩]

/-- C3 counterexample: for an enabled planned child the pass emits the Delete
and also a Disable for the very same child, refuting the claim that a Disable
is never emitted for a planned child. -/
theorem planned_delete_also_disables :
    ([['x']] : List Str).contains (normalize_name ['x']) = true ∧
    cascadePass c3Target [['x']] c3Current =
      some [Op.del ['A'] ['x'] 2, Op.disable ['A'] ['x'] 2] :=
  ⟨by decide, by decide⟩

/-- C5 counterexample input, target side: parent "Foo" with the enabled
child "x". -/
def c5Target : Target := [(['F', 'o', 'o'], [⟨['x'], false⟩])]

/-- C5 counterexample input, current side: parent "Foo " (trailing space)
holding the enabled child "x". -/
def c5Current : Current := [⟨['F', 'o', 'o', ' '], 1, [⟨['x'], false, 2⟩]⟩]

/-- C5 counterexample: the child "x" sits under the current parent "Foo "
whose name differs from the target parent "Foo" only by trailing whitespace,
and the normalized name of "x" is in that target parent's child set; yet the
sweep marks it To disable, because line 287 looks the parent up by exact
name. -/
theorem obsolete_sweep_normalized_parent_counterexample :
    normalize_name ['F', 'o', 'o', ' '] = normalize_name ['F', 'o', 'o'] ∧
    (((c5Target.lookup ['F', 'o', 'o']).getD []).map fun t =>
      normalize_name t.name).contains (normalize_name ['x']) = true ∧
    cascadePass c5Target [] c5Current =
      some [Op.disable ['F', 'o', 'o', ' '] ['x'] 2] :=
  ⟨by decide, by decide, by decide⟩

/-- C5 (amended): the obsolete sweep selects the target child set of a
current parent by exact parent-name equality, not by normalized matching.
For an enabled current child with a platform-unique option id, a Disable is
emitted for it if and only if its normalized name is absent from the target
child set found under the exactly equal parent key; a target set reachable
only through case or whitespace normalization does not protect it. -/
theorem obsolete_sweep_exact_parent_match (target : Target) (current : Current)
    (p : CParent) (c : CChild) (hp : p ∈ current) (hc : c ∈ p.children)
    (hen : c.disabled = false)
    (hid : ∀ p' ∈ current, ∀ c' ∈ p'.children, c'.id = c.id → p' = p ∧ c' = c) :
    Op.disable p.name c.name c.id ∈ disableSweep target current ↔
      ((((target.lookup p.name).getD []).map fun t =>
        normalize_name t.name).contains (normalize_name c.name)) = false := by
  constructor
  · intro h
    obtain ⟨p', hp', c', hc', heq, hen', hout'⟩ := of_mem_disableSweep h
    have hcid : c'.id = c.id := by
      injection heq with e1 e2 e3
      exact e3.symm
    obtain ⟨hpp, hcc⟩ := hid p' hp' c' hc' hcid
    subst hpp
    subst hcc
    exact hout'
  · intro hout
    exact mem_disableSweep hp hc hen hout

/-- Witness for the amended C5 theorem: under the current parent "Foo "
(exact key absent from the target) the enabled child "x" is marked
To disable. -/
theorem obsolete_sweep_exact_parent_match_witness :
    Op.disable ['F', 'o', 'o', ' '] ['x'] 2 ∈ disableSweep c5Target c5Current := by
  have h := obsolete_sweep_exact_parent_match c5Target c5Current
    ⟨['F', 'o', 'o', ' '], 1, [⟨['x'], false, 2⟩]⟩ ⟨['x'], false, 2⟩
    (by decide) (by decide) (by decide) (by decide)
  exact h.mpr (by decide)

/-- Logical names for the Jira fields touched by the service
synchronization; the configuration maps each to a platform field id
(CUSTOM_FIELDS in src/common_functions.py). -/
inductive FieldKey where
  | domainId
  | serviceName
  | shortName
  | status
  | usage
  | classification
  | summary
  | assignee
  | reporter
deriving DecidableEq

/-- Value stored in a Jira field as _compare_fields reads it
(src/IssuesProcessing.py lines 669-671): either a plain string or an option
object carrying value and name entries. -/
inductive JVal where
  | s (v : Str)
  | obj (value : Option Str) (name : Option Str)
deriving DecidableEq

/-- Value placed into an update payload. -/
inductive UVal where
  | text (v : Str)
  | select (v : Str)
  | null
  | account (accountId : Str)
deriving DecidableEq

/-- Python or on two optional strings: the left operand if it is truthy
(present and nonempty), otherwise the right operand. -/
def pyOr (a b : Option Str) : Option Str :=
  match a with
  | some v => if v = [] then b else some v
  | none => b

/-- _normalize_value (src/IssuesProcessing.py lines 720-725): None stays
None, otherwise strip, and a blank result becomes None. -/
def normalizeValue : Option Str → Option Str
  | none => none
  | some v =>
    let t := pyStrip v
    if t = [] then none else some t

/-- map_operational_status from src/Business_service.py lines 51-77. -/
def map_operational_status (code : Option Str) : Option Str :=
  match code with
  | none => none
  | some c =>
    if c = "1".toList then some "Operational (1)".toList
    else if c = "2".toList then some "Non-Operational (2)".toList
    else if c = "3".toList then some "Repair in Progress (3)".toList
    else if c = "4".toList then some "DR Standby (4)".toList
    else if c = "5".toList then some "Ready (5)".toList
    else if c = "6".toList then some "Retired (6)".toList
    else if c = "20".toList then some "Planned (20)".toList
    else none

/-- One ServiceNow export record, restricted to the keys the service
synchronization reads. -/
structure SRecord where
  sys_id : Option Str
  name : Option Str
  u_business_domain : Option Str
  u_short_service_id : Option Str
  operational_status : Option Str
  used_for : Option Str
  service_classification : Option Str
deriving DecidableEq

/-- The fields of an existing Jira issue that _compare_fields reads: the six
compared custom fields and the summary (which defaults to the empty
string). -/
structure JFields where
  domainId : Option JVal
  serviceName : Option JVal
  shortName : Option JVal
  status : Option JVal
  usage : Option JVal
  classification : Option JVal
  summary : Str
deriving DecidableEq

/-- Lines 669-671: a dict-valued Jira field contributes its value entry, or
its name entry when the value is falsy. -/
def currentComparable (v : Option JVal) : Option Str :=
  match v with
  | none => none
  | some (JVal.s s) => some s
  | some (JVal.obj value nm) => pyOr value nm

/-- One iteration of the field_mappings loop of _compare_fields
(lines 656-682): normalize both sides, and on a difference record the new
value, but only when the new value is truthy. -/
def diffEntry (k : FieldKey) (isSelect : Bool) (cur : Option JVal)
    (newRaw : Option Str) : List (FieldKey × UVal) :=
  let newV := normalizeValue newRaw
  let curV := normalizeValue (currentComparable cur)
  if curV ≠ newV then
    match newV with
    | some nv => [(k, if isSelect then UVal.select nv else UVal.text nv)]
    | none => []
  else []

/-- _compare_fields (src/IssuesProcessing.py lines 616-718): the six mapped
fields in dict order, then the summary retirement handling.  The status field
is mapped through map_operational_status before normalization. -/
def compareFields (ex : JFields) (rec : SRecord) : List (FieldKey × UVal) :=
  let updates :=
    diffEntry FieldKey.domainId false ex.domainId rec.u_business_domain ++
    diffEntry FieldKey.serviceName false ex.serviceName rec.name ++
    diffEntry FieldKey.shortName false ex.shortName rec.u_short_service_id ++
    diffEntry FieldKey.status true ex.status
      (map_operational_status rec.operational_status) ++
    diffEntry FieldKey.usage true ex.usage rec.used_for ++
    diffEntry FieldKey.classification true ex.classification
      rec.service_classification
  let base := stripRetired ex.summary
  if rec.operational_status = some "6".toList then
    let expected := deriveRetiredSummary ex.summary
    if ex.summary ≠ expected then
      updates ++ [(FieldKey.summary, UVal.text expected)]
    else updates
  else
    if ex.summary ≠ base then
      updates ++ [(FieldKey.summary, UVal.text (base.take 255))]
    else updates

/-- The combined update request built by _update_business_service_optimized
(lines 356-405): the compared diff, then the forced assignee clear and, when
the mandatory reporter id resolved, the forced reporter; the verification
label is always added and the dated comment is attached when
fields_to_update is non-empty at payload-construction time. -/
structure UpdatePayload where
  fieldsToUpdate : List (FieldKey × UVal)
  labelAdd : Bool
  commentAttached : Bool
deriving DecidableEq

/-- _update_business_service_optimized (src/IssuesProcessing.py
lines 356-405). -/
def updateBusinessServiceOptimized (ex : JFields) (rec : SRecord)
    (repId : Option Str) : UpdatePayload :=
  let fs := compareFields ex rec
  let fs := fs ++ [(FieldKey.assignee, UVal.null)]
  let fs :=
    match repId with
    | some r => fs ++ [(FieldKey.reporter, UVal.account r)]
    | none => fs
  { fieldsToUpdate := fs
    labelAdd := true
    commentAttached := !fs.isEmpty }

/-- The summary built by create_business_service_issue
(src/IssuesProcessing.py lines 516-518): "name | sys_id" truncated to 255
characters, with "Unknown" defaults. -/
def create_business_service_summary (rec : SRecord) : Str :=
  ((rec.name.getD "Unknown".toList) ++ " | ".toList ++
    (rec.sys_id.getD "Unknown".toList)).take 255

/-- C4 failing input, record side: a service identical to its Jira issue
(name Payroll, status Operational, no other populated fields). -/
def c4Record : SRecord :=
  ⟨some "A1".toList, some "Payroll".toList, none, none, some "1".toList,
    none, none⟩

/-- C4 failing input, issue side: the matching Jira issue with no field
difference. -/
def c4Issue : JFields :=
  ⟨none, some (JVal.s "Payroll".toList), none,
    some (JVal.obj (some "Operational (1)".toList) none), none, none,
    "Payroll | A1".toList⟩

/-- C4: the update always clears the assignee, but the dated comment is
attached on every update, not only when a compared field differs: the forced
assignee clear lands in fields_to_update before the emptiness test that
guards the comment, so the test never sees an empty dict.  On the failing
input the compared diff is empty and the comment is still attached. -/
theorem update_comment_always_attached :
    (∀ ex rec repId,
      (updateBusinessServiceOptimized ex rec repId).commentAttached = true ∧
      (FieldKey.assignee, UVal.null) ∈
        (updateBusinessServiceOptimized ex rec repId).fieldsToUpdate) ∧
    compareFields c4Issue c4Record = [] ∧
    (updateBusinessServiceOptimized c4Issue c4Record none).commentAttached
      = true := by
  refine ⟨fun ex rec repId => ?_, by decide, by decide⟩
  cases repId with
  | none => simp [updateBusinessServiceOptimized]
  | some r => simp [updateBusinessServiceOptimized]

theorem diffEntry_key {k k' : FieldKey} {v : UVal} {b : Bool}
    {cur : Option JVal} {nr : Option Str}
    (h : (k', v) ∈ diffEntry k b cur nr) : k' = k := by
  simp only [diffEntry] at h
  split at h
  · split at h
    · have h2 := List.mem_singleton.mp h
      exact congrArg Prod.fst h2
    · exact absurd h (by simp)
  · exact absurd h (by simp)

/-- C10: every summary string written by create_business_service_issue, and
every replacement summary proposed by _compare_fields (the Retired-prefixed
form and the bare base form alike), is at most 255 characters long. -/
theorem summary_length_bounded :
    (∀ rec : SRecord, (create_business_service_summary rec).length ≤ 255) ∧
    (∀ (ex : JFields) (rec : SRecord) (s : Str),
      (FieldKey.summary, UVal.text s) ∈ compareFields ex rec →
      s.length ≤ 255) := by
  constructor
  · intro rec
    unfold create_business_service_summary
    rw [List.length_take]
    exact min_le_left _ _
  · intro ex rec s h
    have hkey : ∀ w : UVal, (FieldKey.summary, w) ∈
        (diffEntry FieldKey.domainId false ex.domainId rec.u_business_domain ++
        diffEntry FieldKey.serviceName false ex.serviceName rec.name ++
        diffEntry FieldKey.shortName false ex.shortName rec.u_short_service_id ++
        diffEntry FieldKey.status true ex.status
          (map_operational_status rec.operational_status) ++
        diffEntry FieldKey.usage true ex.usage rec.used_for ++
        diffEntry FieldKey.classification true ex.classification
          rec.service_classification) → False := by
      intro w hw
      simp only [List.mem_append] at hw
      rcases hw with ((((hw | hw) | hw) | hw) | hw) | hw <;>
        exact absurd (diffEntry_key hw) (by decide)
    simp only [compareFields] at h
    split at h
    · split at h
      · rcases List.mem_append.mp h with h | h
        · exact absurd h (hkey _)
        · have h2 := List.mem_singleton.mp h
          have h3 : UVal.text s = UVal.text (deriveRetiredSummary ex.summary) :=
            congrArg Prod.snd h2
          injection h3 with h4
          subst h4
          unfold deriveRetiredSummary
          rw [List.length_take]
          exact min_le_left _ _
      · exact absurd h (hkey _)
    · split at h
      · rcases List.mem_append.mp h with h | h
        · exact absurd h (hkey _)
        · have h2 := List.mem_singleton.mp h
          have h3 : UVal.text s =
              UVal.text ((stripRetired ex.summary).take 255) :=
            congrArg Prod.snd h2
          injection h3 with h4
          subst h4
          rw [List.length_take]
          exact min_le_left _ _
      · exact absurd h (hkey _)

/-- Witness for C10 at a concrete issue whose summary loses its Retired
prefix: the proposed replacement is Pay, of length at most 255. -/
theorem summary_length_bounded_witness :
    (['P', 'a', 'y'] : Str).length ≤ 255 := by
  have hmem : (FieldKey.summary, UVal.text ['P', 'a', 'y']) ∈
      compareFields
        ⟨none, none, none, none, none, none, "Retired-Pay".toList⟩
        ⟨none, none, none, none, some "1".toList, none, none⟩ := by decide
  exact summary_length_bounded.2 _ _ _ hmem

/-- One successful page of the token-based Jira search response: the issues
of the page (abstracted to numeric identifiers) and the optional
nextPageToken. -/
structure JPage where
  issues : List Nat
  nextPageToken : Option Str
deriving DecidableEq

/-- One server response to a search request: a page, or a transport-level
fault (an HTTP error raised by raise_for_status, a timeout, a connection
error). -/
inductive FetchResp where
  | page (p : JPage)
  | fault
deriving DecidableEq

/-- The pagination loop of fetch_jira_issues_paginated (src/jira_utils.py
lines 38-106), run against the script of successive server responses: extend
the accumulator, stop when nextPageToken is falsy (absent or empty), then
stop when the page carried zero issues; on a fault the enclosing try/except
returns the empty list.  A server that stops answering mid-loop is not a
behaviour of the Python program; the model returns the accumulator there. -/
def fetchJiraAux : List Nat → List FetchResp → List Nat
  | acc, [] => acc
  | _, FetchResp.fault :: _ => []
  | acc, FetchResp.page p :: rest =>
    let acc2 := acc ++ p.issues
    if (p.nextPageToken.getD []) = [] then acc2
    else if p.issues.length = 0 then acc2
    else fetchJiraAux acc2 rest

/-- fetch_jira_issues_paginated as a function of the server's responses. -/
def fetch_jira_issues_paginated (rs : List FetchResp) : List Nat :=
  fetchJiraAux [] rs

/-- The identical pagination loop inside
load_all_business_services_with_fields (src/IssuesProcessing.py
lines 84-124); the except clause at lines 155-160 returns two empty
dictionaries, modelled as the empty record list. -/
def loadAllServicesAux : List Nat → List FetchResp → List Nat
  | acc, [] => acc
  | _, FetchResp.fault :: _ => []
  | acc, FetchResp.page p :: rest =>
    let acc2 := acc ++ p.issues
    if (p.nextPageToken.getD []) = [] then acc2
    else if p.issues.length = 0 then acc2
    else loadAllServicesAux acc2 rest

/-- load_all_business_services_with_fields as a function of the server's
responses, restricted to the record sequence it accumulates. -/
def load_all_business_services (rs : List FetchResp) : List Nat :=
  loadAllServicesAux [] rs

/-- One successful page of the offset-based option fetch: the values and the
isLast marker (absent means last, via data_opt.get with default True). -/
structure OptPage where
  values : List Nat
  isLast : Option Bool
deriving DecidableEq

/-- One server response to an option-page request. -/
inductive OptResp where
  | page (p : OptPage)
  | fault
deriving DecidableEq

/-- fetch_all_options (src/sync_cdl_combined.py lines 95-120): offset-based
loop with no try/except, so raise_for_status propagates the exception
(Except.error); the loop stops only on the isLast marker — it has no
zero-results stop. -/
def fetchAllOptionsAux : List Nat → List OptResp → Except Unit (List Nat)
  | acc, [] => Except.ok acc
  | _, OptResp.fault :: _ => Except.error ()
  | acc, OptResp.page p :: rest =>
    let acc2 := acc ++ p.values
    if p.isLast.getD true then Except.ok acc2
    else fetchAllOptionsAux acc2 rest

/-- fetch_all_options as a function of the server's responses. -/
def fetch_all_options (rs : List OptResp) : Except Unit (List Nat) :=
  fetchAllOptionsAux [] rs

/-- C7 counterexample: fetch_all_options receives a page with zero values
and isLast false, keeps going, and returns the next page's value; under the
claimed unconditional zero-results stop it would have returned the empty
accumulation. -/
theorem fetch_all_options_zero_page_continues :
    fetch_all_options
        [OptResp.page ⟨[], some false⟩, OptResp.page ⟨[5], some true⟩] =
      (Except.ok [5] : Except Unit (List Nat)) ∧
    (Except.ok ([5] : List Nat) : Except Unit (List Nat)) ≠ Except.ok [] :=
  ⟨rfl, by simp⟩

/-- C7 (amended): the token-based loops of fetch_jira_issues_paginated and
load_all_business_services_with_fields stop unconditionally on a
zero-results page even when a continuation token is present, but
fetch_all_options stops only on the isLast marker and continues past a
zero-results page. -/
theorem pagination_zero_results_stop :
    (∀ (acc : List Nat) (c : Char) (t : Str) (rest : List FetchResp),
      fetchJiraAux acc (FetchResp.page ⟨[], some (c :: t)⟩ :: rest) = acc) ∧
    (∀ (acc : List Nat) (c : Char) (t : Str) (rest : List FetchResp),
      loadAllServicesAux acc (FetchResp.page ⟨[], some (c :: t)⟩ :: rest) = acc) ∧
    (∀ (acc : List Nat) (rest : List OptResp),
      fetchAllOptionsAux acc (OptResp.page ⟨[], some false⟩ :: rest) =
        fetchAllOptionsAux acc rest) := by
  refine ⟨fun acc c t rest => ?_, fun acc c t rest => ?_, fun acc rest => ?_⟩
  · simp [fetchJiraAux]
  · simp [loadAllServicesAux]
  · simp [fetchAllOptionsAux]

/-- A response after which the token-based loop requests a further page: a
successful page with a truthy continuation token and at least one issue. -/
def continuesPage : FetchResp → Bool
  | FetchResp.page p => !(p.nextPageToken.getD []).isEmpty && !p.issues.isEmpty
  | FetchResp.fault => false

/-- A response after which the offset-based option loop requests a further
page: a successful page whose isLast marker is present and false. -/
def continuesOptPage : OptResp → Bool
  | OptResp.page p => p.isLast.getD true = false
  | OptResp.fault => false

theorem fetchJiraAux_fault (rest : List FetchResp) :
    ∀ (pre : List FetchResp) (acc : List Nat),
    (∀ r ∈ pre, continuesPage r = true) →
    fetchJiraAux acc (pre ++ FetchResp.fault :: rest) = [] := by
  intro pre
  induction pre with
  | nil => intro acc _; rfl
  | cons r pre ih =>
    intro acc hall
    have hr := hall r (List.mem_cons_self r pre)
    cases r with
    | fault => exact absurd hr (by simp [continuesPage])
    | page p =>
      simp only [continuesPage, Bool.and_eq_true, Bool.not_eq_true',
        List.isEmpty_eq_false] at hr
      obtain ⟨ht, hi⟩ := hr
      rw [List.cons_append, fetchJiraAux]
      rw [if_neg ht, if_neg (by simpa [List.length_eq_zero] using hi)]
      exact ih _ (fun x hx => hall x (List.mem_cons_of_mem _ hx))

theorem loadAllServicesAux_fault (rest : List FetchResp) :
    ∀ (pre : List FetchResp) (acc : List Nat),
    (∀ r ∈ pre, continuesPage r = true) →
    loadAllServicesAux acc (pre ++ FetchResp.fault :: rest) = [] := by
  intro pre
  induction pre with
  | nil => intro acc _; rfl
  | cons r pre ih =>
    intro acc hall
    have hr := hall r (List.mem_cons_self r pre)
    cases r with
    | fault => exact absurd hr (by simp [continuesPage])
    | page p =>
      simp only [continuesPage, Bool.and_eq_true, Bool.not_eq_true',
        List.isEmpty_eq_false] at hr
      obtain ⟨ht, hi⟩ := hr
      rw [List.cons_append, loadAllServicesAux]
      rw [if_neg ht, if_neg (by simpa [List.length_eq_zero] using hi)]
      exact ih _ (fun x hx => hall x (List.mem_cons_of_mem _ hx))

theorem fetchAllOptionsAux_fault (rest : List OptResp) :
    ∀ (pre : List OptResp) (acc : List Nat),
    (∀ r ∈ pre, continuesOptPage r = true) →
    fetchAllOptionsAux acc (pre ++ OptResp.fault :: rest) = Except.error () := by
  intro pre
  induction pre with
  | nil => intro acc _; rfl
  | cons r pre ih =>
    intro acc hall
    have hr := hall r (List.mem_cons_self r pre)
    cases r with
    | fault => exact absurd hr (by simp [continuesOptPage])
    | page p =>
      have hr2 : p.isLast.getD true = false := of_decide_eq_true hr
      rw [List.cons_append, fetchAllOptionsAux, hr2]
      simp only [Bool.false_eq_true, if_false]
      exact ih _ (fun x hx => hall x (List.mem_cons_of_mem _ hx))

/-- C6 (amended): when the transport faults while retrieving a further page,
the accumulated records are not returned: fetch_jira_issues_paginated and
load_all_business_services_with_fields discard them and return an empty
result through their except clauses, and fetch_all_options propagates the
exception to its caller. -/
theorem transport_fault_discards_partial (pre : List FetchResp)
    (preO : List OptResp) (rest : List FetchResp) (restO : List OptResp)
    (h : ∀ r ∈ pre, continuesPage r = true)
    (hO : ∀ r ∈ preO, continuesOptPage r = true) :
    fetch_jira_issues_paginated (pre ++ FetchResp.fault :: rest) = [] ∧
    load_all_business_services (pre ++ FetchResp.fault :: rest) = [] ∧
    fetch_all_options (preO ++ OptResp.fault :: restO) = Except.error () :=
  ⟨fetchJiraAux_fault rest pre [] h, loadAllServicesAux_fault rest pre [] h,
    fetchAllOptionsAux_fault restO preO [] hO⟩

/-- Witness for the amended C6 theorem: one full page with a token, then a
fault — everything is discarded, and the option fetch propagates. -/
theorem transport_fault_discards_partial_witness :
    fetch_jira_issues_paginated
        [FetchResp.page ⟨[1], some ['t']⟩, FetchResp.fault] = [] ∧
    load_all_business_services
        [FetchResp.page ⟨[1], some ['t']⟩, FetchResp.fault] = [] ∧
    fetch_all_options [OptResp.page ⟨[1], some false⟩, OptResp.fault] =
      Except.error () := by
  have h := transport_fault_discards_partial
    [FetchResp.page ⟨[1], some ['t']⟩] [OptResp.page ⟨[1], some false⟩]
    [] [] (by decide) (by decide)
  exact h

/-- C6 counterexample: a fault on the second page makes
fetch_jira_issues_paginated return the empty list, not the partial sequence
containing the first page's record. -/
theorem transport_fault_counterexample :
    fetch_jira_issues_paginated
        [FetchResp.page ⟨[7], some ['u']⟩, FetchResp.fault] = [] ∧
    ([] : List Nat) ≠ [7] :=
  ⟨by decide, by decide⟩

/-- MAX_RETRIES from src/rate_limit_config.py line 20. -/
def MAX_RETRIES : Nat := 3

/-- RETRY_BASE_DELAY from src/rate_limit_config.py line 21, in tenths of a
second (10 s). -/
def RETRY_BASE_DELAY : Nat := 100

/-- RATE_LIMIT_DELAY from src/rate_limit_config.py line 19, in tenths of a
second (0.5 s). -/
def RATE_LIMIT_DELAY : Nat := 5

/-- One attempt outcome for the PUT inside update_issue: an HTTP status
code, or a non-HTTP exception (connection failure, timeout, JSON fault). -/
inductive ReqResult where
  | status (code : Nat)
  | exn
deriving DecidableEq

/-- The retry loop of update_issue (src/jira_utils.py lines 233-308) run
against the script of successive attempt outcomes; the result is the
returned value, the number of attempts consumed, and the sleeps performed in
tenths of a second.  Two faithfulness notes.  First, statuses below 400 do
not raise in raise_for_status, so they take the success path.  Second, in
the HTTPError handler the guard on line 267 evaluates the truthiness of
er.response, and requests.Response defines its truth value as response.ok,
which is false for every error status; the branch of lines 267-291 is
therefore never entered, and a non-429 HTTP error merely falls through to
the attempt == MAX_RETRIES - 1 test on line 294, looping again (with no
sleep) on earlier attempts. -/
def updateIssueLoop : Nat → Nat → List ReqResult → Option Nat × Nat × List Nat
  | 0, _, _ => (none, 0, [])
  | _ + 1, _, [] => (none, 0, [])
  | fuel + 1, idx, r :: rest =>
    match r with
    | ReqResult.exn => (none, 1, [])
    | ReqResult.status code =>
      if code = 429 then
        if idx < MAX_RETRIES - 1 then
          let d := RETRY_BASE_DELAY * 2 ^ idx
          let out := updateIssueLoop fuel (idx + 1) rest
          (out.1, out.2.1 + 1, d :: out.2.2)
        else (none, 1, [])
      else if code < 400 then (some code, 1, [RATE_LIMIT_DELAY])
      else
        if idx = MAX_RETRIES - 1 then (none, 1, [])
        else
          let out := updateIssueLoop fuel (idx + 1) rest
          (out.1, out.2.1 + 1, out.2.2)

/-- update_issue as a function of the attempt-outcome script. -/
def update_issue (script : List ReqResult) : Option Nat × Nat × List Nat :=
  updateIssueLoop MAX_RETRIES 0 script

/-- C8: the 429 handling matches the claim — backoff delays
RETRY_BASE_DELAY times two to the attempt, at most MAX_RETRIES attempts,
None after exhaustion, and the fixed delay only after success — but a
non-429 HTTP failure does not return None immediately: a request answered
500 three times consumes all three attempts (with no sleeps) because the
er.response truthiness guard hides the immediate-return branch. -/
theorem update_issue_retries_non_429 :
    update_issue [ReqResult.status 500, ReqResult.status 500,
        ReqResult.status 500] = (none, 3, []) ∧
    (3 : Nat) ≠ 1 ∧
    update_issue [ReqResult.status 429, ReqResult.status 429,
        ReqResult.status 429] = (none, 3, [100, 200]) ∧
    update_issue [ReqResult.status 429, ReqResult.status 204] =
      (some 204, 2, [100, 5]) ∧
    update_issue [ReqResult.exn] = (none, 1, []) :=
  ⟨by decide, by decide, by decide, by decide, by decide⟩

/-- One ServiceNow business-domain record, restricted to the keys that
_add_missing_domains_to_confluence reads. -/
structure DomRecord where
  sys_id : Option Str
  operational_status : Option Str
  name : Option Str
deriving DecidableEq

/-- One attempted Confluence table addition: the call
update_confluence_table_with_new_domain on a domain_info holding the sys_id
and name (src/business_domain.py lines 981-984). -/
structure ConfAdd where
  sys_id : Option Str
  name : Str
deriving DecidableEq

/-- Membership of an optional string in a set of strings, as the Python in
operator (None is in no set of strings). -/
def optMem (tables : List Str) : Option Str → Bool
  | some s => tables.contains s
  | none => false

/-- _add_planned_domain, _add_retired_domain and _add_active_domain
(src/business_domain.py lines 996-1069) all perform, when automatic
Confluence updates are enabled, exactly one table addition with
is_planned set and no rule id. -/
def addDomainCall (auto : Bool) (d : DomRecord) : List ConfAdd :=
  if auto then [⟨d.sys_id, d.name.getD []⟩] else []

/-- _add_missing_domains_to_confluence (src/business_domain.py
lines 941-993): skip records whose sys_id is already in the automation table
or the processed set, skip records without a name, then dispatch on
operational_status — planned ("20") and retired ("6") add once each, the
Active statuses ("1", empty, missing) call _add_active_domain twice
(lines 992-993), and any other status adds nothing. -/
def addMissingDomainsToConfluence (auto : Bool)
    (automationTable processedIds : List Str) (domains : List DomRecord) :
    List ConfAdd :=
  domains.flatMap fun d =>
    if optMem automationTable d.sys_id || optMem processedIds d.sys_id then []
    else if (d.name.getD []) = [] then []
    else if d.operational_status = some "20".toList then addDomainCall auto d
    else if d.operational_status = some "6".toList then addDomainCall auto d
    else if d.operational_status = some "1".toList ∨
        d.operational_status = some [] ∨ d.operational_status = none then
      addDomainCall auto d ++ addDomainCall auto d
    else []

/-- C9: an Active domain absent from the automation table and the processed
set receives two Confluence table additions in one pass, not one — the
Active branch calls _add_active_domain twice. -/
theorem active_domain_added_twice :
    addMissingDomainsToConfluence true [] []
        [⟨some "d1".toList, some "1".toList, some "Finance".toList⟩] =
      [⟨some "d1".toList, "Finance".toList⟩,
        ⟨some "d1".toList, "Finance".toList⟩] ∧
    (addMissingDomainsToConfluence true [] []
        [⟨some "d1".toList, some "1".toList, some "Finance".toList⟩]).length
      = 2 :=
  ⟨by decide, by decide⟩
